import Mathlib

/-
Verification of the publication-info fetcher
(src/scripts/fetch-publication-info.py).

The script is a linear pipeline: load a newline-delimited identifier list,
fetch citation counts from a search API in batches of 50, fetch article
metadata from an XML API, and zip everything into a tab-separated report.
The development below is a shallow embedding of that pipeline: Python
dictionaries become insertion-ordered association lists, the XML tree
becomes an inductive type, exceptions become Option results, and the
in-place mutation of the citation-count dictionary during report writing
becomes explicit state passing.
-/

set_option autoImplicit false

/-! ## Python dictionaries as insertion-ordered association lists -/

/-- A Python dict, modelled as an insertion-ordered association list
whose keys are unique (all dicts below are built from the empty dict by
`dictInsert`, which preserves that invariant). -/
abbrev Dict (κ α : Type) := List (κ × α)

/-- Dict lookup: the value of the first (hence, under key uniqueness, only)
entry with the given key; models `d[k]` returning `none` for a `KeyError`. -/
def dictLookup {κ α : Type} [DecidableEq κ] : Dict κ α → κ → Option α
  | [], _ => none
  | (k2, v) :: rest, k => if k2 = k then some v else dictLookup rest k

/-- Models the Python membership test `k in d`. -/
def dictContains {κ α : Type} [DecidableEq κ] (d : Dict κ α) (k : κ) : Bool :=
  (dictLookup d k).isSome

/-- Models the Python assignment `d[k] = v`: an existing entry keeps its
position and gets the new value, a fresh key is appended at the end
(Python dicts preserve insertion order). -/
def dictInsert {κ α : Type} [DecidableEq κ] : Dict κ α → κ → α → Dict κ α
  | [], k, v => [(k, v)]
  | (k2, v2) :: rest, k, v =>
      if k2 = k then (k, v) :: rest else (k2, v2) :: dictInsert rest k v

/-! ## Stage 1: the identifier loader (main, lines 31-40) -/

/-- Python `str.rstrip()`: strip trailing whitespace characters. -/
def rstrip (s : String) : String :=
  String.mk ((s.data.reverse.dropWhile Char.isWhitespace).reverse)

/-- The loader loop of `main`: for each line of the input file,
skip it when `line.rstrip() == "pmid"`, otherwise append `line.rstrip()`
to the identifier list. -/
def loadIdList : List String → List String
  | [] => []
  | line :: rest =>
      if rstrip line = "pmid" then loadIdList rest
      else rstrip line :: loadIdList rest

/-! ## Stage 2: the citation-count fetcher (fetch_scopus_info) -/

/-- The chunking comprehension
`[id_list[i:i+50] for i in range(0, len(id_list), 50)]`:
contiguous slices of 50 identifiers (the last one possibly shorter). -/
def chunkedList (l : List String) : List (List String) :=
  if l = [] then []
  else l.take 50 :: chunkedList (l.drop 50)
termination_by l.length
decreasing_by
  rename_i h
  have hpos : 0 < l.length := List.length_pos.mpr h
  simp only [List.length_drop]
  omega

/-- The query string built for one chunk:
`"PMID(" + " OR ".join(chunk) + ")"`. -/
def queryFor (chunk : List String) : String :=
  "PMID(" ++ String.intercalate " OR " chunk ++ ")"

/-- The sequence of query strings issued by `fetch_scopus_info`,
one per chunk, in chunk order. -/
def batchQueries (ids : List String) : List String :=
  (chunkedList ids).map queryFor

/-- The inner loop of `fetch_scopus_info` over the entry list of one JSON
response: `scopus_info[result["pubmed-id"]] = result["citedby-count"]` for
each entry. A missing `"pubmed-id"` or `"citedby-count"` key is an uncaught
`KeyError`, modelled as `none`. -/
def buildScopusAux : List (Dict String String) → Dict String String →
    Option (Dict String String)
  | [], acc => some acc
  | e :: rest, acc =>
      match dictLookup e "pubmed-id", dictLookup e "citedby-count" with
      | some k, some v => buildScopusAux rest (dictInsert acc k v)
      | _, _ => none

/-- The outer loop of `fetch_scopus_info`: one JSON response per chunk,
each contributing its entry list to the accumulated dictionary. The
response bodies (here already reduced to their
`response["search-results"]["entry"]` lists) come from the network and are
a parameter of the embedding. -/
def scopusLoop : List (List (Dict String String)) → Dict String String →
    Option (Dict String String)
  | [], acc => some acc
  | entries :: rest, acc =>
      match buildScopusAux entries acc with
      | some acc2 => scopusLoop rest acc2
      | none => none

/-- `fetch_scopus_info`, with the per-chunk JSON entry lists supplied as
input: starts from the empty dictionary and folds every response in. -/
def fetch_scopus_info (responses : List (List (Dict String String))) :
    Option (Dict String String) :=
  scopusLoop responses []

/-! ## Stage 3: the metadata fetcher (fetch_efetch_info) -/

/-- An `xml.etree.ElementTree` element: tag, attribute dict, text
(`None` when the element has no text, hence `Option`), and child
elements in document order. -/
inductive Xml where
  | elem (tag : String) (attrs : Dict String String) (text : Option String)
      (children : List Xml)

def Xml.tag : Xml → String
  | .elem t _ _ _ => t

def Xml.attrs : Xml → Dict String String
  | .elem _ a _ _ => a

def Xml.text : Xml → Option String
  | .elem _ _ t _ => t

def Xml.children : Xml → List Xml
  | .elem _ _ _ c => c

/-- `element.find(tag)`: the first direct child with the given tag,
`none` when there is no such child. -/
def Xml.find (x : Xml) (t : String) : Option Xml :=
  x.children.find? (fun c => c.tag = t)

/-- `element.findall(tag)`: all direct children with the given tag,
in document order. -/
def Xml.findall (x : Xml) (t : String) : List Xml :=
  x.children.filter (fun c => c.tag = t)

/-- `element.get(attr)`: attribute lookup, `None` when absent. -/
def Xml.get (x : Xml) (a : String) : Option String :=
  dictLookup x.attrs a

/-- How Python `str.format` renders an element text that may be `None`:
`"{0}".format(None)` produces the string `"None"`. -/
def pyStr (o : Option String) : String := o.getD "None"

/-- The lookup chain
`article.find("Journal").find("JournalIssue").find("PubDate").find(field)`;
a `none` anywhere in the chain models the `AttributeError` raised by
calling `.find` (or reading `.text`) on `None`. -/
def pubDateNode (article : Xml) (field : String) : Option Xml :=
  (((article.find "Journal").bind (fun j => j.find "JournalIssue")).bind
      (fun ji => ji.find "PubDate")).bind
    (fun pd => pd.find field)

/-- The journal-date try block: read Year, Month, Day under
`Journal/JournalIssue/PubDate` and format them as `"{0} {1} {2}"`; any
`AttributeError` in the chain collapses the whole field to `""`. -/
def journalDateOf (article : Xml) : String :=
  match pubDateNode article "Year", pubDateNode article "Month",
      pubDateNode article "Day" with
  | some y, some m, some d =>
      pyStr y.text ++ " " ++ pyStr m.text ++ " " ++ pyStr d.text
  | _, _, _ => ""

/-- The lookup chain `article.find("ArticleDate").find(field)`. -/
def articleDateNode (article : Xml) (field : String) : Option Xml :=
  (article.find "ArticleDate").bind (fun ad => ad.find field)

/-- The electronic-date try block: Year, Month, Day under `ArticleDate`,
formatted as `"{0}/{1}/{2}"`, with the same all-or-nothing collapse
to `""` on `AttributeError`. -/
def electronicDateOf (article : Xml) : String :=
  match articleDateNode article "Year", articleDateNode article "Month",
      articleDateNode article "Day" with
  | some y, some m, some d =>
      pyStr y.text ++ "/" ++ pyStr m.text ++ "/" ++ pyStr d.text
  | _, _, _ => ""

/-- Turns a list of optional values into an optional list: `some` of all
the values when every element is present, `none` otherwise. Used to model
`";".join(mesh_ids)` raising an uncaught `TypeError` when some child has
no `UI` attribute (so `child.get("UI")` returned `None`). -/
def allSome {α : Type} : List (Option α) → Option (List α)
  | [] => some []
  | none :: _ => none
  | some x :: rest => (allSome rest).map (fun l => x :: l)

/-- One MeSH heading group:
`";".join([child.get("UI") for child in headings])` over all children of
the `MeshHeading` element; `none` models the fatal `TypeError` when a
child has no `UI` attribute. -/
def meshGroup (h : Xml) : Option String :=
  (allSome (h.children.map (fun c => c.get "UI"))).map
    (String.intercalate ";")

/-- The MeSH try block: a missing `MeshHeadingList` raises
`AttributeError` on `.findall`, caught and turned into `""`; otherwise
the heading groups are serialized and joined with `"|"` (a missing `UI`
attribute raises `TypeError`, which the `except AttributeError` does not
catch — modelled as `none`). -/
def meshTermsOf (medline : Xml) : Option String :=
  match medline.find "MeshHeadingList" with
  | none => some ""
  | some ml =>
      (allSome ((ml.findall "MeshHeading").map meshGroup)).map
        (String.intercalate "|")

/-- The 4-tuple stored per identifier by `fetch_efetch_info`:
`(title, journal_date, electronic_date, mesh_terms)`. The title is
`Journal/Title` element text, which Python leaves as `None` for an empty
element (making the later `"\t".join` fatal), hence `Option`. -/
structure Meta where
  title : Option String
  journalDate : String
  electronicDate : String
  meshTerms : String
deriving DecidableEq

/-- The per-article body of the `fetch_efetch_info` loop. `none` models
the uncaught exceptions: `AttributeError` when `MedlineCitation`, `PMID`,
`Article`, `Journal` or `Title` is missing (these lookups are not inside
any try block), and `TypeError` from the MeSH join. The key is the text
of the `PMID` element, which Python happily uses even when it is `None`. -/
def parseArticle (article : Xml) : Option (Option String × Meta) :=
  match article.find "MedlineCitation" with
  | none => none
  | some medline =>
      match medline.find "PMID" with
      | none => none
      | some pmidNode =>
          match medline.find "Article" with
          | none => none
          | some art =>
              match (art.find "Journal").bind (fun j => j.find "Title") with
              | none => none
              | some titleNode =>
                  match meshTermsOf medline with
                  | none => none
                  | some mesh =>
                      some (pmidNode.text,
                        { title := titleNode.text
                          journalDate := journalDateOf art
                          electronicDate := electronicDateOf art
                          meshTerms := mesh })

/-- The `for article in root.findall("PubmedArticle")` loop: parse each
article and store its tuple under its PMID text. Any fatal parse error
aborts the whole function. -/
def buildEfetchAux : List Xml → Dict (Option String) Meta →
    Option (Dict (Option String) Meta)
  | [], acc => some acc
  | a :: rest, acc =>
      match parseArticle a with
      | none => none
      | some (k, m) => buildEfetchAux rest (dictInsert acc k m)

/-- `fetch_efetch_info`, with the parsed XML root supplied as input:
builds the metadata dictionary from the `PubmedArticle` children. -/
def fetch_efetch_info (root : Xml) : Option (Dict (Option String) Meta) :=
  buildEfetchAux (root.findall "PubmedArticle") []

/-! ## Stage 4: the report writer (main, lines 46-68) -/

/-- The header column names (main, lines 46-47). -/
def headers : List String :=
  ["PMID", "Journal Name", "Journal Pub Date", "Electronic Date",
   "Citations", "Publisher", "Funding Support", "Study Type", "MeSH Terms"]

/-- The report loop of `main`. For each identifier, in order:
first `scopus_info[pubmed_id] = ""` when the identifier is not in the
citation-count dict (this mutates `scopus_info`, threaded here as explicit
state); then the row tuple
`(pubmed_id, efetch[pid][0], efetch[pid][1], efetch[pid][2],
scopus[pid], "", "", "", efetch[pid][3])` — a missing metadata entry is an
uncaught `KeyError`, and a `None` title makes the subsequent
`"\t".join(row)` raise `TypeError`; both fatal cases are modelled by
returning `none` for the row list (the mutated citation dict up to the
crash point is still returned). The lookup `scopus[pid]` always succeeds
because the entry was just ensured, so its default is never used. -/
def writeRows (ids : List String) (scopus : Dict String String)
    (efetch : Dict (Option String) Meta) :
    Option (List (List String)) × Dict String String :=
  match ids with
  | [] => (some [], scopus)
  | pid :: rest =>
      let scopus1 :=
        if dictContains scopus pid then scopus else dictInsert scopus pid ""
      match dictLookup efetch (some pid) with
      | none => (none, scopus1)
      | some m =>
          match m.title with
          | none => (none, scopus1)
          | some t =>
              let row := [pid, t, m.journalDate, m.electronicDate,
                          (dictLookup scopus1 pid).getD "", "", "", "",
                          m.meshTerms]
              match writeRows rest scopus1 efetch with
              | (some rows, sc) => (some (row :: rows), sc)
              | (none, sc) => (none, sc)

/-- The emitted report, as a list of lines: the tab-joined header followed
by the tab-joined data rows, `none` when the row loop crashes. -/
def report (ids : List String) (scopus : Dict String String)
    (efetch : Dict (Option String) Meta) : Option (List String) :=
  match (writeRows ids scopus efetch).1 with
  | some rows =>
      some (String.intercalate "\t" headers ::
        rows.map (String.intercalate "\t"))
  | none => none

/-- Specification-side description of the row emitted for one identifier
(meaningful when the identifier has a metadata entry): the identifier, the
first three metadata fields, the citation count looked up in the original
citation dict (defaulting to the empty string), three empty placeholder
cells, and the MeSH terms last. -/
def rowSpec (scopus : Dict String String) (efetch : Dict (Option String) Meta)
    (pid : String) : List String :=
  match dictLookup efetch (some pid) with
  | some m => [pid, (m.title).getD "", m.journalDate, m.electronicDate,
               (dictLookup scopus pid).getD "", "", "", "", m.meshTerms]
  | none => []

/-! ## Dictionary lemmas -/

theorem dictLookup_insert_self {κ α : Type} [DecidableEq κ] :
    ∀ (d : Dict κ α) (k : κ) (v : α), dictLookup (dictInsert d k v) k = some v
  | [], _, _ => by simp [dictInsert, dictLookup]
  | (k2, v2) :: rest, k, v => by
      by_cases h : k2 = k
      · simp [dictInsert, dictLookup, h]
      · simp [dictInsert, dictLookup, h, dictLookup_insert_self rest k v]

theorem dictLookup_insert_ne {κ α : Type} [DecidableEq κ] :
    ∀ (d : Dict κ α) (k q : κ) (v : α), q ≠ k →
      dictLookup (dictInsert d k v) q = dictLookup d q
  | [], k, q, v, h => by
      have hne : ¬ k = q := fun hh => h hh.symm
      simp [dictInsert, dictLookup, hne]
  | (k2, v2) :: rest, k, q, v, h => by
      by_cases h2 : k2 = k
      · subst h2
        have hne : ¬ k2 = q := fun hh => h hh.symm
        simp [dictInsert, dictLookup, hne]
      · simp only [dictInsert, if_neg h2, dictLookup]
        by_cases h3 : k2 = q
        · simp [h3]
        · simp [h3, dictLookup_insert_ne rest k q v h]

/-- The `scopus_info[pubmed_id] = ""` ensure step never changes the value
that a later `dictLookup … .getD ""` observes, for any key. -/
theorem ensure_getD (scopus : Dict String String) (pid q : String) :
    (dictLookup
        (if dictContains scopus pid then scopus else dictInsert scopus pid "")
        q).getD "" =
      (dictLookup scopus q).getD "" := by
  by_cases hc : dictContains scopus pid
  · simp [hc]
  · simp only [hc, if_false, Bool.false_eq_true]
    by_cases hq : q = pid
    · subst hq
      have hnone : dictLookup scopus q = none := by
        simpa [dictContains, Option.isSome_iff_ne_none] using hc
      simp [dictLookup_insert_self, hnone]
    · simp [dictLookup_insert_ne scopus pid q "" hq]

theorem rowSpec_ensure (scopus : Dict String String)
    (efetch : Dict (Option String) Meta) (pid q : String) :
    rowSpec
        (if dictContains scopus pid then scopus else dictInsert scopus pid "")
        efetch q =
      rowSpec scopus efetch q := by
  unfold rowSpec
  cases dictLookup efetch (some q) with
  | none => rfl
  | some m => simp [ensure_getD scopus pid q]

/-! ## The row-loop characterization -/

/-- When the report loop finishes without a crash, the emitted rows are
exactly `rowSpec` applied to the identifiers in order, and every
identifier has a metadata entry with a present title. -/
theorem writeRows_spec (ids : List String) :
    ∀ (scopus : Dict String String) (efetch : Dict (Option String) Meta)
      (rows : List (List String)),
      (writeRows ids scopus efetch).1 = some rows →
      rows = ids.map (rowSpec scopus efetch) ∧
      ∀ pid ∈ ids, ∃ m,
        dictLookup efetch (some pid) = some m ∧ m.title ≠ none := by
  induction ids with
  | nil =>
      intro scopus efetch rows h
      simp only [writeRows, Option.some.injEq] at h
      simp [← h]
  | cons pid rest ih =>
      intro scopus efetch rows h
      simp only [writeRows] at h
      cases hef : dictLookup efetch (some pid) with
      | none => simp [hef] at h
      | some m =>
          simp only [hef] at h
          cases ht : m.title with
          | none => simp [ht] at h
          | some t =>
              simp only [ht] at h
              rcases hw : writeRows rest
                  (if dictContains scopus pid then scopus
                   else dictInsert scopus pid "") efetch with ⟨o, sc⟩
              cases o with
              | none => simp [hw] at h
              | some rows2 =>
                  simp only [hw, Option.some.injEq] at h
                  have hrest : (writeRows rest
                      (if dictContains scopus pid then scopus
                       else dictInsert scopus pid "") efetch).1 =
                      some rows2 := by rw [hw]
                  obtain ⟨hrows2, hpres⟩ := ih _ efetch rows2 hrest
                  constructor
                  · rw [← h, hrows2]
                    simp only [List.map_cons, List.cons.injEq]
                    constructor
                    · unfold rowSpec
                      rw [hef]
                      simp [ht, ensure_getD scopus pid pid]
                    · exact List.map_congr_left
                        (fun q _ => rowSpec_ensure scopus efetch pid q)
                  · intro q hq
                    rcases List.mem_cons.mp hq with hq | hq
                    · subst hq
                      exact ⟨m, hef, by simp [ht]⟩
                    · exact hpres q hq

/-! ## Chunking lemmas -/

theorem chunkedList_flatten (l : List String) : (chunkedList l).flatten = l := by
  induction l using chunkedList.induct with
  | case1 => simp [chunkedList]
  | case2 x hx ih =>
      rw [chunkedList]
      simp [hx, ih, List.take_append_drop]

theorem chunkedList_length (l : List String) :
    (chunkedList l).length = (l.length + 49) / 50 := by
  induction l using chunkedList.induct with
  | case1 => simp [chunkedList]
  | case2 x hx ih =>
      rw [chunkedList]
      simp only [List.length_drop] at ih
      have hpos : 0 < x.length := List.length_pos.mpr hx
      simp [hx, ih]
      omega

theorem chunkedList_chunk_le (l : List String) :
    ∀ c ∈ chunkedList l, c.length ≤ 50 := by
  induction l using chunkedList.induct with
  | case1 => simp [chunkedList]
  | case2 x hx ih =>
      rw [chunkedList]
      simp only [hx, if_neg]
      intro c hc
      rcases List.mem_cons.mp hc with h | h
      · subst h
        simp [List.length_take]
      · exact ih c h

/-! ## Claims -/

/-- C1 (counterexample): the loader does not produce trimmed non-empty
lines. A whitespace-only line survives as the empty-string identifier,
and leading whitespace is preserved (`rstrip` only trims the right). -/
theorem claim_C1_counterexample :
    loadIdList ["pmid\n", " \n", " 100\n"] = ["", " 100"] ∧
    "" ∈ loadIdList ["pmid\n", " \n", " 100\n"] := by decide

/-- C1 (amended): for every input file, the loader produces the ordered
sequence of trailing-whitespace-stripped lines in file order, excluding
every line whose stripped form equals the token `"pmid"` regardless of
position; whitespace-only lines appear as empty-string identifiers and
leading whitespace is preserved. -/
theorem claim_C1 (lines : List String) :
    loadIdList lines = (lines.map rstrip).filter (fun s => s != "pmid") := by
  induction lines with
  | nil => rfl
  | cons line rest ih =>
      by_cases h : rstrip line = "pmid"
      · simp [loadIdList, h, ih]
      · simp [loadIdList, List.filter_cons, bne_iff_ne, h, ih]

/-- C2: whenever the report loop completes, it emits exactly one data row
per loaded identifier, and the identifier cell of the k-th data row is the
k-th loaded identifier, duplicates and order preserved. -/
theorem claim_C2 (ids : List String) (scopus : Dict String String)
    (efetch : Dict (Option String) Meta) (rows : List (List String))
    (h : (writeRows ids scopus efetch).1 = some rows) :
    rows.length = ids.length ∧
    ∀ k, k < ids.length → (rows.getD k []).getD 0 "" = ids.getD k "" := by
  obtain ⟨hrows, hpres⟩ := writeRows_spec ids scopus efetch rows h
  subst hrows
  refine ⟨List.length_map _ _, ?_⟩
  intro k hk
  obtain ⟨m, hm, -⟩ := hpres ids[k] (List.getElem_mem hk)
  have h1 : (List.map (rowSpec scopus efetch) ids).getD k [] =
      rowSpec scopus efetch ids[k] := by
    simp [List.getD, List.get?_eq_getElem?, List.getElem?_map,
      List.getElem?_eq_getElem hk]
  have h2 : ids.getD k "" = ids[k] := by
    simp [List.getD, List.get?_eq_getElem?, List.getElem?_eq_getElem hk]
  rw [h1, h2]
  unfold rowSpec
  rw [hm]
  rfl

/-- A sample metadata tuple for instantiating the report-writer theorems
on concrete inputs. -/
def sampleMeta : Meta :=
  { title := some "T", journalDate := "JD", electronicDate := "ED",
    meshTerms := "M" }

/-- A sample metadata dictionary holding one entry, for identifier 100. -/
def sampleEfetch : Dict (Option String) Meta := [(some "100", sampleMeta)]

theorem claim_C2_witness :
    ([["100", "T", "JD", "ED", "", "", "", "", "M"]] :
        List (List String)).length = (["100"] : List String).length ∧
    ∀ k, k < (["100"] : List String).length →
      (([["100", "T", "JD", "ED", "", "", "", "", "M"]] :
          List (List String)).getD k []).getD 0 "" =
        (["100"] : List String).getD k "" :=
  claim_C2 ["100"] [] sampleEfetch
    [["100", "T", "JD", "ED", "", "", "", "", "M"]] (by decide)

/-- C3: the citation-count fetcher issues exactly the ceiling of N/50
batch queries; the batches are contiguous chunks of at most 50
identifiers whose concatenation is the identifier list in input order,
and each query is the chunk joined by the OR separator inside the
PMID search prefix. -/
theorem claim_C3 (ids : List String) :
    (batchQueries ids).length = (ids.length + 49) / 50 ∧
    (chunkedList ids).flatten = ids ∧
    (∀ c ∈ chunkedList ids, c.length ≤ 50) ∧
    batchQueries ids = (chunkedList ids).map
      (fun c => "PMID(" ++ String.intercalate " OR " c ++ ")") := by
  refine ⟨?_, chunkedList_flatten ids, chunkedList_chunk_le ids, rfl⟩
  simp [batchQueries, chunkedList_length]

/-- C4: a loaded identifier absent from the citation-count dictionary
still gets its report row, and the Citations cell (column index 4) of
that row is exactly the empty string. -/
theorem claim_C4 (ids : List String) (scopus : Dict String String)
    (efetch : Dict (Option String) Meta) (rows : List (List String))
    (pid : String) (k : Nat)
    (h : (writeRows ids scopus efetch).1 = some rows)
    (habs : dictLookup scopus pid = none)
    (hk : k < ids.length) (hkid : ids.getD k "" = pid) :
    (rows.getD k []).getD 4 "" = "" ∧ rows.getD k [] ≠ [] := by
  obtain ⟨hrows, hpres⟩ := writeRows_spec ids scopus efetch rows h
  subst hrows
  have h2 : ids.getD k "" = ids[k] := by
    simp [List.getD, List.get?_eq_getElem?, List.getElem?_eq_getElem hk]
  have hpid : ids[k] = pid := by rw [← h2, hkid]
  obtain ⟨m, hm, -⟩ := hpres ids[k] (List.getElem_mem hk)
  have h1 : (List.map (rowSpec scopus efetch) ids).getD k [] =
      rowSpec scopus efetch ids[k] := by
    simp [List.getD, List.get?_eq_getElem?, List.getElem?_map,
      List.getElem?_eq_getElem hk]
  rw [h1]
  unfold rowSpec
  rw [hm]
  constructor
  · simp [hpid, habs]
  · simp

theorem claim_C4_witness :
    (([["100", "T", "JD", "ED", "", "", "", "", "M"]] :
        List (List String)).getD 0 []).getD 4 "" = "" ∧
    ([["100", "T", "JD", "ED", "", "", "", "", "M"]] :
        List (List String)).getD 0 [] ≠ [] :=
  claim_C4 ["100"] [] sampleEfetch
    [["100", "T", "JD", "ED", "", "", "", "", "M"]] "100" 0
    (by decide) (by decide) (by decide) (by decide)

/-- C7: the emitted report is tab-separated text whose header row is
exactly the nine fixed column names in order, and in every data row the
Publisher, Funding Support and Study Type cells (column indices 5, 6, 7)
are the empty string. -/
theorem claim_C7 (ids : List String) (scopus : Dict String String)
    (efetch : Dict (Option String) Meta) (rows : List (List String))
    (h : (writeRows ids scopus efetch).1 = some rows) :
    report ids scopus efetch =
      some (("PMID\tJournal Name\tJournal Pub Date\tElectronic Date\tCitations\tPublisher\tFunding Support\tStudy Type\tMeSH Terms") ::
        rows.map (String.intercalate "\t")) ∧
    ∀ r ∈ rows, r.length = 9 ∧
      r.getD 5 "" = "" ∧ r.getD 6 "" = "" ∧ r.getD 7 "" = "" := by
  obtain ⟨hrows, hpres⟩ := writeRows_spec ids scopus efetch rows h
  subst hrows
  constructor
  · unfold report
    rw [h]
    rfl
  · intro r hr
    rcases List.mem_map.mp hr with ⟨pid, hpid, hr2⟩
    obtain ⟨m, hm, -⟩ := hpres pid hpid
    rw [← hr2]
    unfold rowSpec
    rw [hm]
    exact ⟨rfl, rfl, rfl, rfl⟩

theorem claim_C7_witness :
    report ["100"] [] sampleEfetch =
      some (("PMID\tJournal Name\tJournal Pub Date\tElectronic Date\tCitations\tPublisher\tFunding Support\tStudy Type\tMeSH Terms") ::
        ([["100", "T", "JD", "ED", "", "", "", "", "M"]] :
          List (List String)).map (String.intercalate "\t")) ∧
    ∀ r ∈ ([["100", "T", "JD", "ED", "", "", "", "", "M"]] :
        List (List String)), r.length = 9 ∧
      r.getD 5 "" = "" ∧ r.getD 6 "" = "" ∧ r.getD 7 "" = "" :=
  claim_C7 ["100"] [] sampleEfetch
    [["100", "T", "JD", "ED", "", "", "", "", "M"]] (by decide)

/-- C8 (counterexample): the three placeholder columns are not the final
columns of the row — the MeSH summary comes after them, in the last
column. For identifier 100 with citation count 5 and the sample metadata,
the produced row ends with the MeSH field "M", not with an empty
placeholder cell. -/
theorem claim_C8_counterexample :
    (writeRows ["100"] [("100", "5")] sampleEfetch).1 =
      some [["100", "T", "JD", "ED", "5", "", "", "", "M"]] ∧
    (["100", "T", "JD", "ED", "5", "", "", "", "M"] : List String).getD 8 "" =
      "M" ∧
    ("M" : String) ≠ "" := by decide

/-- C8 (amended): every report row consists, in order, of the identifier,
the first three metadata fields (title, journal publication date,
electronic publication date), the citation count, the three always-empty
placeholder columns, and finally the MeSH term summary as the last
column. -/
theorem claim_C8 (ids : List String) (scopus : Dict String String)
    (efetch : Dict (Option String) Meta) (rows : List (List String))
    (k : Nat) (m : Meta)
    (h : (writeRows ids scopus efetch).1 = some rows)
    (hk : k < ids.length)
    (hm : dictLookup efetch (some (ids.getD k "")) = some m) :
    rows.getD k [] = [ids.getD k "", (m.title).getD "", m.journalDate,
      m.electronicDate, (dictLookup scopus (ids.getD k "")).getD "",
      "", "", "", m.meshTerms] := by
  obtain ⟨hrows, -⟩ := writeRows_spec ids scopus efetch rows h
  subst hrows
  have h2 : ids.getD k "" = ids[k] := by
    simp [List.getD, List.get?_eq_getElem?, List.getElem?_eq_getElem hk]
  have h1 : (List.map (rowSpec scopus efetch) ids).getD k [] =
      rowSpec scopus efetch ids[k] := by
    simp [List.getD, List.get?_eq_getElem?, List.getElem?_map,
      List.getElem?_eq_getElem hk]
  rw [h2] at hm ⊢
  rw [h1]
  unfold rowSpec
  rw [hm]

theorem claim_C8_witness :
    ([["100", "T", "JD", "ED", "5", "", "", "", "M"]] :
        List (List String)).getD 0 [] =
      ["100", "T", "JD", "ED", "5", "", "", "", "M"] :=
  claim_C8 ["100"] [("100", "5")] sampleEfetch
    [["100", "T", "JD", "ED", "5", "", "", "", "M"]] 0 sampleMeta
    (by decide) (by decide) (by decide)

/-- C9 (counterexample): the report-writing stage does mutate the
citation-count dictionary: writing the report for identifier 100 with an
empty citation-count dictionary leaves that dictionary holding the entry
(100, ""). -/
theorem claim_C9_counterexample :
    (writeRows ["100"] ([] : Dict String String) sampleEfetch).2 =
      [("100", "")] ∧
    ([("100", "")] : Dict String String) ≠ ([] : Dict String String) := by
  decide

/-- Case analysis of the ensure step `scopus_info[pubmed_id] = ""`:
either it leaves every lookup unchanged, or the key was absent and now
maps to the empty string. -/
theorem ensure_cases (scopus : Dict String String) (pid q : String) :
    dictLookup
        (if dictContains scopus pid then scopus else dictInsert scopus pid "")
        q = dictLookup scopus q ∨
      (dictLookup scopus q = none ∧
        dictLookup
            (if dictContains scopus pid then scopus
             else dictInsert scopus pid "") q = some "" ∧
        q = pid) := by
  by_cases hc : dictContains scopus pid
  · left
    simp [hc]
  · by_cases hq : q = pid
    · subst hq
      right
      have hnone : dictLookup scopus q = none := by
        simpa [dictContains, Option.isSome_iff_ne_none] using hc
      simp [hc, hnone, dictLookup_insert_self]
    · left
      simp [hc, dictLookup_insert_ne scopus pid q "" hq]

/-- The citation-count dictionary after the report loop: every existing
entry is preserved with its value, and a key absent at the start is
either still absent or was inserted with the empty string for one of the
loaded identifiers. -/
theorem writeRows_scopus (ids : List String) :
    ∀ (scopus : Dict String String) (efetch : Dict (Option String) Meta),
      (∀ q v, dictLookup scopus q = some v →
        dictLookup (writeRows ids scopus efetch).2 q = some v) ∧
      (∀ q, dictLookup scopus q = none →
        dictLookup (writeRows ids scopus efetch).2 q = none ∨
          (dictLookup (writeRows ids scopus efetch).2 q = some "" ∧
            q ∈ ids)) := by
  induction ids with
  | nil =>
      intro scopus efetch
      constructor
      · intro q v hq
        simpa [writeRows] using hq
      · intro q hq
        left
        simpa [writeRows] using hq
  | cons pid rest ih =>
      intro scopus efetch
      have hstep := fun q => ensure_cases scopus pid q
      cases hef : dictLookup efetch (some pid) with
      | none =>
          constructor
          · intro q v hq
            simp only [writeRows, hef]
            rcases hstep q with h | ⟨hn, -, -⟩
            · rw [h]; exact hq
            · rw [hn] at hq; exact Option.noConfusion hq
          · intro q hq
            simp only [writeRows, hef]
            rcases hstep q with h | ⟨-, hs, he⟩
            · left; rw [h]; exact hq
            · right; exact ⟨hs, by simp [he]⟩
      | some m =>
          cases ht : m.title with
          | none =>
              constructor
              · intro q v hq
                simp only [writeRows, hef, ht]
                rcases hstep q with h | ⟨hn, -, -⟩
                · rw [h]; exact hq
                · rw [hn] at hq; exact Option.noConfusion hq
              · intro q hq
                simp only [writeRows, hef, ht]
                rcases hstep q with h | ⟨-, hs, he⟩
                · left; rw [h]; exact hq
                · right; exact ⟨hs, by simp [he]⟩
          | some t =>
              have hsnd : (writeRows (pid :: rest) scopus efetch).2 =
                  (writeRows rest
                    (if dictContains scopus pid then scopus
                     else dictInsert scopus pid "") efetch).2 := by
                simp only [writeRows, hef, ht]
                rcases hw : writeRows rest
                    (if dictContains scopus pid then scopus
                     else dictInsert scopus pid "") efetch with ⟨o, sc⟩
                cases o <;> simp
              rw [hsnd]
              obtain ⟨ih1, ih2⟩ := ih
                (if dictContains scopus pid then scopus
                 else dictInsert scopus pid "") efetch
              constructor
              · intro q v hq
                rcases hstep q with h | ⟨hn, -, -⟩
                · exact ih1 q v (h.symm ▸ hq)
                · rw [hn] at hq; exact Option.noConfusion hq
              · intro q hq
                rcases hstep q with h | ⟨-, hs, he⟩
                · rcases ih2 q (h.symm ▸ hq) with h3 | ⟨h3, h4⟩
                  · left; exact h3
                  · right; exact ⟨h3, List.mem_cons_of_mem _ h4⟩
                · right
                  exact ⟨ih1 q "" hs, by simp [he]⟩

/-- On a completed report run, the final citation-count dictionary is
determined exactly: a key keeps its original value when present, is
mapped to the empty string when absent but loaded, and stays absent
otherwise (every iteration executes the ensure step, so every loaded
identifier is covered). -/
theorem writeRows_scopus_final (ids : List String) :
    ∀ (scopus : Dict String String) (efetch : Dict (Option String) Meta)
      (rows : List (List String)),
      (writeRows ids scopus efetch).1 = some rows →
      ∀ q, dictLookup (writeRows ids scopus efetch).2 q =
        match dictLookup scopus q with
        | some v => some v
        | none => if q ∈ ids then some "" else none := by
  induction ids with
  | nil =>
      intro scopus efetch rows h q
      simp only [writeRows]
      cases hq : dictLookup scopus q with
      | some v => rfl
      | none => simp
  | cons pid rest ih =>
      intro scopus efetch rows h q
      simp only [writeRows] at h ⊢
      cases hef : dictLookup efetch (some pid) with
      | none => simp [hef] at h
      | some m =>
          simp only [hef] at h ⊢
          cases ht : m.title with
          | none => simp [ht] at h
          | some t =>
              simp only [ht] at h ⊢
              rcases hw : writeRows rest
                  (if dictContains scopus pid then scopus
                   else dictInsert scopus pid "") efetch with ⟨o, sc⟩
              cases o with
              | none => simp [hw] at h
              | some rows2 =>
                  simp only [hw] at h ⊢
                  have hrest1 : (writeRows rest
                      (if dictContains scopus pid then scopus
                       else dictInsert scopus pid "") efetch).1 =
                      some rows2 := by rw [hw]
                  have hind := ih _ efetch rows2 hrest1 q
                  rw [hw] at hind
                  rw [hind]
                  cases hq : dictLookup scopus q with
                  | some v =>
                      rcases ensure_cases scopus pid q with h2 | ⟨hn, -, -⟩
                      · rw [h2, hq]
                      · rw [hn] at hq
                        exact Option.noConfusion hq
                  | none =>
                      by_cases hqpid : q = pid
                      · subst hqpid
                        have hnc : dictContains scopus q = false := by
                          simp [dictContains, hq]
                        have hins : dictLookup
                            (if dictContains scopus q then scopus
                             else dictInsert scopus q "") q = some "" := by
                          rw [hnc]
                          simp [dictLookup_insert_self]
                        rw [hins]
                        simp [List.mem_cons]
                      · rcases ensure_cases scopus pid q with h2 | ⟨-, -, he⟩
                        · rw [h2, hq]
                          simp [List.mem_cons, hqpid]
                        · exact absurd he hqpid

/-- C9 (amended): the metadata dictionary is only read by the
report-writing stage, but the citation-count dictionary is mutated by it:
on a completed report run, every entry present before the stage keeps its
value, each loaded identifier absent from the dictionary is inserted with
the empty string, and no other key is added. -/
theorem claim_C9 (ids : List String) (scopus : Dict String String)
    (efetch : Dict (Option String) Meta) (rows : List (List String))
    (h : (writeRows ids scopus efetch).1 = some rows) :
    (∀ q v, dictLookup scopus q = some v →
      dictLookup (writeRows ids scopus efetch).2 q = some v) ∧
    (∀ q ∈ ids, dictLookup scopus q = none →
      dictLookup (writeRows ids scopus efetch).2 q = some "") ∧
    (∀ q, q ∉ ids → dictLookup scopus q = none →
      dictLookup (writeRows ids scopus efetch).2 q = none) := by
  have hfin := writeRows_scopus_final ids scopus efetch rows h
  refine ⟨?_, ?_, ?_⟩
  · intro q v hq
    rw [hfin q, hq]
  · intro q hmem hq
    rw [hfin q, hq]
    simp [hmem]
  · intro q hmem hq
    rw [hfin q, hq]
    simp [hmem]

theorem claim_C9_witness :
    dictLookup (writeRows ["100"] [("200", "7")] sampleEfetch).2 "200" =
      some "7" ∧
    dictLookup (writeRows ["100"] [("200", "7")] sampleEfetch).2 "100" =
      some "" ∧
    dictLookup (writeRows ["100"] [("200", "7")] sampleEfetch).2 "300" =
      none :=
  ⟨(claim_C9 ["100"] [("200", "7")] sampleEfetch
      [["100", "T", "JD", "ED", "", "", "", "", "M"]] (by decide)).1
      "200" "7" (by decide),
    (claim_C9 ["100"] [("200", "7")] sampleEfetch
      [["100", "T", "JD", "ED", "", "", "", "", "M"]] (by decide)).2.1
      "100" (by decide) (by decide),
    (claim_C9 ["100"] [("200", "7")] sampleEfetch
      [["100", "T", "JD", "ED", "", "", "", "", "M"]] (by decide)).2.2
      "300" (by decide) (by decide)⟩

/-- C5: if any of the Year, Month or Day nodes under
`Journal/JournalIssue/PubDate` is missing, the journal-date field is
exactly the empty string, never a partially-filled date; when all three
nodes are present the field is their texts joined by single spaces; and
the journal-date slot of the metadata tuple built for an article is
exactly this field of its Article node. -/
theorem claim_C5 (article : Xml) :
    ((pubDateNode article "Year" = none ∨
        pubDateNode article "Month" = none ∨
        pubDateNode article "Day" = none) →
      journalDateOf article = "") ∧
    (∀ y m d, pubDateNode article "Year" = some y →
      pubDateNode article "Month" = some m →
      pubDateNode article "Day" = some d →
      journalDateOf article =
        pyStr y.text ++ " " ++ pyStr m.text ++ " " ++ pyStr d.text) ∧
    (∀ pa medline k md, pa.find "MedlineCitation" = some medline →
      medline.find "Article" = some article →
      parseArticle pa = some (k, md) →
      md.journalDate = journalDateOf article) := by
  refine ⟨?_, ?_, ?_⟩
  · intro h
    unfold journalDateOf
    cases hy : pubDateNode article "Year" with
    | none => rfl
    | some y =>
        cases hmo : pubDateNode article "Month" with
        | none => rfl
        | some m =>
            cases hd : pubDateNode article "Day" with
            | none => rfl
            | some d =>
                rcases h with h | h | h
                · rw [h] at hy; exact Option.noConfusion hy
                · rw [h] at hmo; exact Option.noConfusion hmo
                · rw [h] at hd; exact Option.noConfusion hd
  · intro y m d hy hmo hd
    unfold journalDateOf
    rw [hy, hmo, hd]
  · intro pa medline k md h1 h2 hp
    unfold parseArticle at hp
    rw [h1] at hp
    simp only at hp
    cases h3 : medline.find "PMID" with
    | none => simp [h3] at hp
    | some pmidNode =>
        simp only [h3] at hp
        rw [h2] at hp
        simp only at hp
        cases h4 : (article.find "Journal").bind
            (fun j => j.find "Title") with
        | none => simp [h4] at hp
        | some titleNode =>
            simp only [h4] at hp
            cases h5 : meshTermsOf medline with
            | none => simp [h5] at hp
            | some mesh =>
                simp only [h5, Option.some.injEq] at hp
                injection hp with hp1 hp2
                rw [← hp2]

/-- A sample Article node with a complete publication date. -/
def articleFull : Xml :=
  .elem "Article" [] none
    [.elem "Journal" [] none
      [.elem "Title" [] (some "J") [],
       .elem "JournalIssue" [] none
         [.elem "PubDate" [] none
           [.elem "Year" [] (some "2020") [],
            .elem "Month" [] (some "Jan") [],
            .elem "Day" [] (some "5") []]]]]

/-- A sample Article node whose publication date lacks the Day node. -/
def articleNoDay : Xml :=
  .elem "Article" [] none
    [.elem "Journal" [] none
      [.elem "Title" [] (some "J") [],
       .elem "JournalIssue" [] none
         [.elem "PubDate" [] none
           [.elem "Year" [] (some "2020") [],
            .elem "Month" [] (some "Jan") []]]]]

theorem claim_C5_witness :
    journalDateOf articleNoDay = "" ∧
    journalDateOf articleFull = "2020 Jan 5" :=
  ⟨(claim_C5 articleNoDay).1 (Or.inr (Or.inr rfl)),
    (claim_C5 articleFull).2.1
      (.elem "Year" [] (some "2020") [])
      (.elem "Month" [] (some "Jan") [])
      (.elem "Day" [] (some "5") []) rfl rfl rfl⟩

theorem allSome_map_getD {α : Type} (d : α) :
    ∀ (l : List (Option α)), (∀ o ∈ l, o.isSome) →
      allSome l = some (l.map (fun o => o.getD d))
  | [], _ => rfl
  | none :: rest, h => by
      have := h none (by simp)
      simp at this
  | some x :: rest, h => by
      have hrest := allSome_map_getD d rest
        (fun o ho => h o (List.mem_cons_of_mem _ ho))
      simp [allSome, hrest]

/-- With a UI attribute on every child, one heading group serializes to
the semicolon-joined list of those attributes. -/
theorem meshGroup_eq (hd : Xml)
    (hall : ∀ c ∈ hd.children, (c.get "UI").isSome) :
    meshGroup hd = some (String.intercalate ";"
      (hd.children.map (fun c => (c.get "UI").getD ""))) := by
  unfold meshGroup
  rw [allSome_map_getD "" (hd.children.map (fun c => c.get "UI"))
    (by
      intro o ho
      rcases List.mem_map.mp ho with ⟨c, hc, rfl⟩
      exact hall c hc)]
  rw [List.map_map]
  rfl

/-- C6: the MeSH-terms field is, for each MeshHeading group, the UI
attributes of the children of that group joined by semicolons, the groups
being joined by pipes; a missing MeshHeadingList yields exactly the empty
string. -/
theorem claim_C6 (medline ml : Xml) :
    (medline.find "MeshHeadingList" = none → meshTermsOf medline = some "") ∧
    (medline.find "MeshHeadingList" = some ml →
      (∀ hd ∈ ml.findall "MeshHeading", ∀ c ∈ hd.children,
        (c.get "UI").isSome) →
      meshTermsOf medline = some (String.intercalate "|"
        ((ml.findall "MeshHeading").map (fun hd => String.intercalate ";"
          (hd.children.map (fun c => (c.get "UI").getD "")))))) := by
  constructor
  · intro h
    unfold meshTermsOf
    rw [h]
  · intro hml hall
    unfold meshTermsOf
    rw [hml]
    simp only
    rw [allSome_map_getD "" ((ml.findall "MeshHeading").map meshGroup)
      (by
        intro o ho
        rcases List.mem_map.mp ho with ⟨hd, hhd, rfl⟩
        rw [meshGroup_eq hd (hall hd hhd)]
        rfl)]
    have hL : ((ml.findall "MeshHeading").map meshGroup).map
        (fun o => o.getD "") =
        (ml.findall "MeshHeading").map (fun hd => String.intercalate ";"
          (hd.children.map (fun c => (c.get "UI").getD ""))) := by
      rw [List.map_map]
      refine List.map_congr_left ?_
      intro hd hhd
      show (meshGroup hd).getD "" = _
      rw [meshGroup_eq hd (hall hd hhd)]
      rfl
    rw [hL]
    rfl

/-- The sample MeshHeadingList with heading groups
[[D001, D002], [D003]]. -/
def sampleMeshList : Xml :=
  .elem "MeshHeadingList" [] none
    [.elem "MeshHeading" [] none
      [.elem "DescriptorName" [("UI", "D001")] (some "A") [],
       .elem "QualifierName" [("UI", "D002")] (some "B") []],
     .elem "MeshHeading" [] none
      [.elem "DescriptorName" [("UI", "D003")] (some "C") []]]

/-- A sample MEDLINE citation node carrying the sample MeSH list. -/
def sampleMedline : Xml :=
  .elem "MedlineCitation" [] none [sampleMeshList]

theorem claim_C6_witness :
    meshTermsOf sampleMedline = some "D001;D002|D003" ∧
    meshTermsOf (Xml.elem "MedlineCitation" [] none []) = some "" := by
  constructor
  · have h := (claim_C6 sampleMedline sampleMeshList).2 rfl (by decide)
    rw [h]
    rfl
  · exact (claim_C6 (Xml.elem "MedlineCitation" [] none [])
      sampleMeshList).1 rfl

/-! ## Last-occurrence semantics of the dictionary builders -/

/-- Specification-side description: the citation count carried by the
last JSON entry whose pubmed-id equals the given key (entries without
both keys contribute nothing here). -/
def lastScopusValue (entries : List (Dict String String)) (k : String) :
    Option String :=
  match entries with
  | [] => none
  | e :: rest =>
      match lastScopusValue rest k with
      | some v => some v
      | none =>
          match dictLookup e "pubmed-id", dictLookup e "citedby-count" with
          | some k2, some v => if k2 = k then some v else none
          | _, _ => none

/-- Specification-side description: the metadata tuple of the last
article that parses to the given PMID key. -/
def lastParsedMeta (articles : List Xml) (k : Option String) : Option Meta :=
  match articles with
  | [] => none
  | a :: rest =>
      match lastParsedMeta rest k with
      | some m => some m
      | none =>
          match parseArticle a with
          | some (k2, m) => if k2 = k then some m else none
          | none => none

theorem buildScopusAux_no_occurrence :
    ∀ (entries : List (Dict String String)) (acc m : Dict String String)
      (k : String), buildScopusAux entries acc = some m →
      lastScopusValue entries k = none →
      dictLookup m k = dictLookup acc k := by
  intro entries
  induction entries with
  | nil =>
      intro acc m k hb hl
      simp only [buildScopusAux, Option.some.injEq] at hb
      rw [← hb]
  | cons e rest ih =>
      intro acc m k hb hl
      simp only [buildScopusAux] at hb
      cases hpk : dictLookup e "pubmed-id" with
      | none => simp [hpk] at hb
      | some k2 =>
          cases hcc : dictLookup e "citedby-count" with
          | none => simp [hpk, hcc] at hb
          | some v2 =>
              simp only [hpk, hcc] at hb
              unfold lastScopusValue at hl
              cases hr : lastScopusValue rest k with
              | some v3 => simp [hr] at hl
              | none =>
                  simp only [hr, hpk, hcc] at hl
                  have hk : ¬ k2 = k := by
                    intro hk2
                    rw [if_pos hk2] at hl
                    exact Option.noConfusion hl
                  rw [ih (dictInsert acc k2 v2) m k hb hr]
                  exact dictLookup_insert_ne acc k2 k v2
                    (fun hh => hk hh.symm)

theorem buildScopusAux_last :
    ∀ (entries : List (Dict String String)) (acc m : Dict String String)
      (k v : String), buildScopusAux entries acc = some m →
      lastScopusValue entries k = some v → dictLookup m k = some v := by
  intro entries
  induction entries with
  | nil =>
      intro acc m k v hb hl
      simp [lastScopusValue] at hl
  | cons e rest ih =>
      intro acc m k v hb hl
      simp only [buildScopusAux] at hb
      cases hpk : dictLookup e "pubmed-id" with
      | none => simp [hpk] at hb
      | some k2 =>
          cases hcc : dictLookup e "citedby-count" with
          | none => simp [hpk, hcc] at hb
          | some v2 =>
              simp only [hpk, hcc] at hb
              unfold lastScopusValue at hl
              cases hr : lastScopusValue rest k with
              | some v3 =>
                  simp only [hr, Option.some.injEq] at hl
                  exact ih (dictInsert acc k2 v2) m k v hb (hl ▸ hr)
              | none =>
                  simp only [hr, hpk, hcc] at hl
                  by_cases hk : k2 = k
                  · rw [if_pos hk] at hl
                    injection hl with hv
                    rw [hk] at hb
                    rw [buildScopusAux_no_occurrence rest
                        (dictInsert acc k v2) m k hb hr,
                      dictLookup_insert_self acc k v2, hv]
                  · rw [if_neg hk] at hl
                    exact Option.noConfusion hl

theorem buildEfetchAux_no_occurrence :
    ∀ (articles : List Xml) (acc d : Dict (Option String) Meta)
      (k : Option String), buildEfetchAux articles acc = some d →
      lastParsedMeta articles k = none →
      dictLookup d k = dictLookup acc k := by
  intro articles
  induction articles with
  | nil =>
      intro acc d k hb hl
      simp only [buildEfetchAux, Option.some.injEq] at hb
      rw [← hb]
  | cons a rest ih =>
      intro acc d k hb hl
      simp only [buildEfetchAux] at hb
      cases hp : parseArticle a with
      | none => simp [hp] at hb
      | some km =>
          rcases km with ⟨k2, m2⟩
          simp only [hp] at hb
          unfold lastParsedMeta at hl
          cases hr : lastParsedMeta rest k with
          | some m3 => simp [hr] at hl
          | none =>
              simp only [hr, hp] at hl
              have hk : ¬ k2 = k := by
                intro hk2
                rw [if_pos hk2] at hl
                exact Option.noConfusion hl
              rw [ih (dictInsert acc k2 m2) d k hb hr]
              exact dictLookup_insert_ne acc k2 k m2 (fun hh => hk hh.symm)

theorem buildEfetchAux_last :
    ∀ (articles : List Xml) (acc d : Dict (Option String) Meta)
      (k : Option String) (mt : Meta), buildEfetchAux articles acc = some d →
      lastParsedMeta articles k = some mt → dictLookup d k = some mt := by
  intro articles
  induction articles with
  | nil =>
      intro acc d k mt hb hl
      simp [lastParsedMeta] at hl
  | cons a rest ih =>
      intro acc d k mt hb hl
      simp only [buildEfetchAux] at hb
      cases hp : parseArticle a with
      | none => simp [hp] at hb
      | some km =>
          rcases km with ⟨k2, m2⟩
          simp only [hp] at hb
          unfold lastParsedMeta at hl
          cases hr : lastParsedMeta rest k with
          | some m3 =>
              simp only [hr, Option.some.injEq] at hl
              exact ih (dictInsert acc k2 m2) d k mt hb (hl ▸ hr)
          | none =>
              simp only [hr, hp] at hl
              by_cases hk : k2 = k
              · rw [if_pos hk] at hl
                injection hl with hv
                rw [hk] at hb
                rw [buildEfetchAux_no_occurrence rest
                    (dictInsert acc k m2) d k hb hr,
                  dictLookup_insert_self acc k m2, hv]
              · rw [if_neg hk] at hl
                exact Option.noConfusion hl

/-- C10: when a response holds two entries keyed by the same identifier —
two citation-count entries with the same pubmed-id, or two PubmedArticle
elements with the same PMID — the later occurrence silently overwrites
the earlier one in the built dictionary, so lookups (and hence the
report) reflect the last occurrence in response order. -/
theorem claim_C10 :
    (∀ (entries : List (Dict String String)) (acc m : Dict String String)
      (k v : String), buildScopusAux entries acc = some m →
      lastScopusValue entries k = some v → dictLookup m k = some v) ∧
    (∀ (articles : List Xml) (acc d : Dict (Option String) Meta)
      (k : Option String) (mt : Meta), buildEfetchAux articles acc = some d →
      lastParsedMeta articles k = some mt → dictLookup d k = some mt) :=
  ⟨buildScopusAux_last, buildEfetchAux_last⟩

/-- A minimal PubmedArticle element with PMID 9 and the given journal
title text. -/
def dupArticle (t : String) : Xml :=
  .elem "PubmedArticle" [] none
    [.elem "MedlineCitation" [] none
      [.elem "PMID" [] (some "9") [],
       .elem "Article" [] none
         [.elem "Journal" [] none [.elem "Title" [] (some t) []]]]]

theorem claim_C10_witness :
    dictLookup [("7", "2")] "7" = some "2" ∧
    dictLookup
        [((some "9" : Option String),
          ({ title := some "B", journalDate := "", electronicDate := "",
             meshTerms := "" } : Meta))] (some "9") =
      some { title := some "B", journalDate := "", electronicDate := "",
             meshTerms := "" } :=
  ⟨claim_C10.1
      [[("pubmed-id", "7"), ("citedby-count", "1")],
       [("pubmed-id", "7"), ("citedby-count", "2")]] [] [("7", "2")] "7" "2"
      (by decide) (by decide),
    claim_C10.2 [dupArticle "A", dupArticle "B"] []
      [(some "9", { title := some "B", journalDate := "",
                    electronicDate := "", meshTerms := "" })]
      (some "9")
      { title := some "B", journalDate := "", electronicDate := "",
        meshTerms := "" }
      (by decide) (by decide)⟩
